import Mathlib

/-!
Shallow embedding of the brand extraction pipeline of the
tri-tender-brand-mcp repository (`src/brand_engine`): the hex-color
scanner (`utils.extract_hex_colors_from_text`), the dominant-color
extractor (`utils.image_dominant_colors`), the font-name normalizer
(`extractors._font_family_from_pdf_name`), the per-document extractors
(`extractors._extract_from_pdf`, `extractors._extract_from_docx`), the
profile assembler (`extractors.extract_brand_from_files`) and the
`BrandProfile` dataclass with its `ensure_palette` invariant
(`brand_profile.py`).

Python strings are modelled as `String`/`List Char`, machine-level I/O
and the document libraries (pdfplumber, PyMuPDF, python-docx, PIL) as an
explicit environment record supplying, per path, what each library call
returns — `Except Unit` marks a call that can raise.  Exceptions caught
by the source's `try`/`except` blocks are modelled by the corresponding
`Except` case analysis at exactly the scope the source catches them.
-/

/-! ## Character classes

`HEX_COLOR_PATTERN = re.compile(r"#(?:[0-9a-fA-F]{3}){1,2}\b")` — we model
the two classes the pattern needs: a hex digit, and a regex word
character (`\b` is a word/non-word boundary).  The inputs under
consideration are ASCII, where Python `\w` is exactly letters, digits
and underscore. -/

def isHexDigitChar (c : Char) : Bool :=
  (('0' ≤ c) && (c ≤ '9')) || (('a' ≤ c) && (c ≤ 'f')) || (('A' ≤ c) && (c ≤ 'F'))

def isWordChar (c : Char) : Bool :=
  (('A' ≤ c) && (c ≤ 'Z')) || (('a' ≤ c) && (c ≤ 'z')) ||
    (('0' ≤ c) && (c ≤ '9')) || c == '_'

/-- The `\b` at the end of the pattern: the position after the last hex
digit must not be followed by a word character (end of input is a
boundary, since the digit before it is a word character). -/
def boundaryOk : List Char → Bool
  | [] => true
  | c :: _ => !isWordChar c

/-- Consume exactly `n` hex digits from the front of `cs`, returning them;
`none` when fewer than `n` hex digits lead `cs`. -/
def takeHexRun : Nat → List Char → Option (List Char)
  | 0, _ => some []
  | _ + 1, [] => none
  | n + 1, c :: cs =>
    if isHexDigitChar c then (takeHexRun n cs).map (c :: ·) else none

/-- One width alternative of `(?:[0-9a-fA-F]{3}){1,2}\b`: `n` hex digits
followed by a boundary. -/
def tryWidth (n : Nat) (cs : List Char) : Option (List Char) :=
  match takeHexRun n cs with
  | some t => if boundaryOk (cs.drop n) then some t else none
  | none => none

/-- The regex engine's behaviour after a `#`: the greedy `{1,2}` tries two
repetitions (6 digits) first and backtracks to one repetition (3 digits)
when the 6-digit alternative or its boundary fails. -/
def tryMatch (cs : List Char) : Option (List Char) :=
  match tryWidth 6 cs with
  | some t => some t
  | none => tryWidth 3 cs

/-- `re.findall`: scan left to right; at a `#` attempt a match, and on
success resume after the matched token (non-overlapping matches), else
resume at the next character.  `fuel` only bounds the recursion depth
(the scan consumes at least one character per step, so `s.length` fuel
is always enough); it is fixed by `findHexMatches` below. -/
def findHexAux : Nat → List Char → List (List Char)
  | 0, _ => []
  | _ + 1, [] => []
  | fuel + 1, c :: rest =>
    if c = '#' then
      match tryMatch rest with
      | some t => t :: findHexAux fuel (rest.drop t.length)
      | none => findHexAux fuel rest
    else findHexAux fuel rest

/-- All matches of `HEX_COLOR_PATTERN` in `s`, as their digit parts (each
match is `'#'` followed by its digits). -/
def findHexMatches (s : List Char) : List (List Char) :=
  findHexAux s.length s

/-- The full matched token `#digits` as a string. -/
def matchString (t : List Char) : String :=
  String.mk ('#' :: t)

/-- Python `str.upper()` (ASCII inputs). -/
def pyUpperString (s : String) : String :=
  String.mk (s.data.map Char.toUpper)

/-- Python string comparison `a <= b` restricted to the code-point
lexicographic order (which is what Python's `<` on `str` is): true when
`a` is a prefix of `b` or the first differing character of `a` is
smaller. -/
def listCharLe : List Char → List Char → Bool
  | [], _ => true
  | _ :: _, [] => false
  | a :: as, b :: bs =>
    if a < b then true else if b < a then false else listCharLe as bs

/-- The order `sorted()` uses on strings, as a proposition. -/
def pyStrLe (a b : String) : Prop := listCharLe a.data b.data = true

instance : DecidableRel pyStrLe := fun _ _ => instDecidableEqBool _ _

/-- Python `sorted()` on a list of strings (a stable comparison sort;
insertion sort is one). -/
def pySortStrings (l : List String) : List String :=
  List.insertionSort pyStrLe l

/-- `utils.extract_hex_colors_from_text`:
`matches = HEX_COLOR_PATTERN.findall(text or "")` then
`sorted(set(m.upper() for m in matches))`.  `None` input is modelled by
`Option.none`; `text or ""` maps it (and only falsy strings, i.e. `""`)
to the empty string.  `sorted(set(...))` is the sorted list of the
distinct elements. -/
def extract_hex_colors_from_text (text : Option String) : List String :=
  pySortStrings
    (((findHexMatches (text.getD "").data).map
      (fun t => pyUpperString (matchString t))).dedup)

example :
    extract_hex_colors_from_text
      (some "Our brand color is #2563EB and accent #0EA5E9.") =
    ["#0EA5E9", "#2563EB"] := by decide

example : extract_hex_colors_from_text (some "#12345678") = [] := by decide

example : extract_hex_colors_from_text (some "#abc def #ABC") = ["#ABC"] := by decide

example : extract_hex_colors_from_text none = [] := by decide

example : extract_hex_colors_from_text (some "#1234 #123456g #12") = [] := by decide

/-! ## Python string helpers used by the extractors -/

/-- Python `str.lower()` (ASCII inputs: file extensions). -/
def pyLowerString (s : String) : String :=
  String.mk (s.data.map Char.toLower)

/-- Python `str.endswith(suffix)`. -/
def pyEndsWith (s suf : String) : Bool :=
  decide (suf.data.length ≤ s.data.length) &&
    s.data.drop (s.data.length - suf.data.length) == suf.data

/-- Python `str.strip()`: drop leading and trailing whitespace. -/
def pyStrip (cs : List Char) : List Char :=
  ((cs.dropWhile Char.isWhitespace).reverse.dropWhile Char.isWhitespace).reverse

/-- A character the `safe_filename` pattern `[^a-zA-Z0-9._-]+` keeps. -/
def isSafeFileChar (c : Char) : Bool :=
  (('a' ≤ c) && (c ≤ 'z')) || (('A' ≤ c) && (c ≤ 'Z')) ||
    (('0' ≤ c) && (c ≤ '9')) || c == '.' || c == '_' || c == '-'

/-- `re.sub(r"[^a-zA-Z0-9._-]+", "_", ...)`: each maximal run of
disallowed characters becomes one underscore.  `fuel` only bounds the
recursion (at least one character is consumed per step). -/
def subBadRunsAux : Nat → List Char → List Char
  | 0, s => s
  | _ + 1, [] => []
  | fuel + 1, c :: rest =>
    if isSafeFileChar c then c :: subBadRunsAux fuel rest
    else '_' :: subBadRunsAux fuel (rest.dropWhile (fun d => !isSafeFileChar d))

/-- `utils.safe_filename`: `re.sub(r"[^a-zA-Z0-9._-]+", "_", name.strip())`. -/
def safe_filename (name : String) : String :=
  String.mk (subBadRunsAux name.data.length (pyStrip name.data))

/-- `os.path.dirname` (POSIX): everything before the last `/`, the empty
string when there is no `/` (relative file name).  A trailing run of
slashes only, as in `"/x"`, keeps the slash — dirname is the prefix up
to, and excluding, the final component. -/
def pyDirname (p : String) : String :=
  if p.data.contains '/' then
    let rev := p.data.reverse.dropWhile (fun c => c ≠ '/')
    let rev2 := if rev = ['/'] then rev else rev.dropWhile (fun c => c = '/')
    String.mk rev2.reverse
  else ""

/-- `os.path.join a b` (POSIX, `b` relative): `a` empty gives `b`,
otherwise a `/` separates unless `a` already ends in one. -/
def pyJoin (a b : String) : String :=
  if a = "" then b
  else if pyEndsWith a "/" then a ++ b
  else a ++ "/" ++ b

/-! ## Font-name normalizer (`extractors._font_family_from_pdf_name`) -/

/-- Python `str.replace(pat, "")` for a non-empty `pat`: delete every
(left-to-right, non-overlapping) occurrence of `pat`.  `fuel` only
bounds the recursion. -/
def removeAllAux (pat : List Char) : Nat → List Char → List Char
  | 0, s => s
  | _ + 1, [] => []
  | fuel + 1, c :: rest =>
    if pat ≠ [] && (c :: rest).take pat.length = pat then
      removeAllAux pat fuel ((c :: rest).drop pat.length)
    else c :: removeAllAux pat fuel rest

def removeAll (pat s : List Char) : List Char :=
  removeAllAux pat s.length s

/-- `font_name.split("+", 1)` followed by `parts[-1]`: the part after the
first `+` (the whole string when no `+` occurs is handled by the caller). -/
def partAfterPlus : List Char → List Char
  | [] => []
  | c :: rest => if c = '+' then rest else partAfterPlus rest

/-- The fixed default font stack of `brand_profile.py` and of the `not
font_name` branch of `_font_family_from_pdf_name`. -/
def defaultFontStack : String :=
  "Inter, system-ui, -apple-system, BlinkMacSystemFont, 'Segoe UI', sans-serif"

/-- What the f-string appends after the quoted family name. -/
def fontStackTail : String :=
  "', system-ui, -apple-system, BlinkMacSystemFont, 'Segoe UI', sans-serif"

/-- `extractors._font_family_from_pdf_name`.  The parameter is
`Option String` so that Python `None` is representable; `if not
font_name` is true for `None` and for the empty string. -/
def _font_family_from_pdf_name (font_name : Option String) : String :=
  match font_name with
  | none => defaultFontStack
  | some s =>
    if s = "" then defaultFontStack
    else
      let fam0 := if s.data.contains '+' then partAfterPlus s.data else s.data
      let fam1 := pyStrip (removeAll "Regular".data (removeAll "Bold".data fam0))
      let fam : String := if fam1 = [] then "Inter" else String.mk fam1
      "'" ++ fam ++ fontStackTail

example :
    _font_family_from_pdf_name (some "AAAAAA+Helvetica-Bold") =
    "'Helvetica-', system-ui, -apple-system, BlinkMacSystemFont, 'Segoe UI', sans-serif" := by
  decide

example : _font_family_from_pdf_name (some "") = defaultFontStack := by decide

example : _font_family_from_pdf_name none = defaultFontStack := by decide

/-! ## `BrandProfile` and `ensure_palette` (`brand_profile.py`) -/

/-- The `BrandProfile` dataclass with its field defaults.  `Optional`
fields are `Option String`. -/
structure BrandProfile where
  name : Option String := none
  logo_path : Option String := none
  primary_color : Option String := none
  secondary_color : Option String := none
  accent_color : Option String := none
  neutral_color : String := "#111827"
  background_color : String := "#F9FAFB"
  font_heading : String := defaultFontStack
  font_body : String := defaultFontStack
  detected_colors : List String := []
  detected_fonts : List String := []
  hex_colors_in_text : List String := []
  chart_palette : List String := []
deriving DecidableEq

/-- The fixed 6-color fallback sequence inside `ensure_palette`. -/
def fallbackPalette : List String :=
  ["#2563EB", "#0EA5E9", "#22C55E", "#F97316", "#E11D48", "#A855F7"]

/-- The dedup loop of `ensure_palette`: `if c and c not in seen`, keeping
the first occurrence of each truthy (non-empty) string.  `seen` is the
set of strings already kept (it always equals the set of elements of the
output built so far). -/
def pyDedupTruthy (seen : List String) : List String → List String
  | [] => []
  | c :: rest =>
    if c ≠ "" && !(seen.contains c) then c :: pyDedupTruthy (c :: seen) rest
    else pyDedupTruthy seen rest

/-- `BrandProfile.ensure_palette`, as a function on profiles (the Python
method mutates `self`; the returned profile is the mutated state). -/
def BrandProfile.ensure_palette (p : BrandProfile) : BrandProfile :=
  if p.chart_palette ≠ [] then p
  else
    let base_colors :=
      ([p.primary_color, p.secondary_color, p.accent_color,
        some p.neutral_color].filterMap id).filter (fun c => c ≠ "")
    { p with chart_palette := (pyDedupTruthy [] (base_colors ++ fallbackPalette)).take 8 }

example :
    (BrandProfile.ensure_palette {}).chart_palette =
    ["#111827", "#2563EB", "#0EA5E9", "#22C55E", "#F97316", "#E11D48", "#A855F7"] := by
  decide

/-! ## The environment: what the document/image libraries return

The pipeline's I/O (filesystem checks, pdfplumber, PyMuPDF, python-docx,
PIL) is modelled by an `Env` record mapping each path to what the
library calls on it produce.  `Except Unit` is a call that can raise;
the `try`/`except` blocks of the source decide where an `.error` is
absorbed. -/

/-- An RGB triple as PIL surfaces it (channel values are bytes in
practice; the type does not enforce it). -/
abbrev Rgb := Nat × Nat × Nat

instance exceptDecEq {ε α : Type} [DecidableEq ε] [DecidableEq α] :
    DecidableEq (Except ε α) := fun x y =>
  match x, y with
  | .ok a, .ok b =>
    if h : a = b then isTrue (congrArg Except.ok h)
    else isFalse (fun he => h (Except.ok.inj he))
  | .error a, .error b =>
    if h : a = b then isTrue (congrArg Except.error h)
    else isFalse (fun he => h (Except.error.inj he))
  | .ok _, .error _ => isFalse (fun he => Except.noConfusion he)
  | .error _, .ok _ => isFalse (fun he => Except.noConfusion he)

/-- One pdfplumber page: `page.extract_text()` (which may return `None`,
hence the inner `Option`) and `page.chars`, a list of per-character
records of which only `char.get("fontname")` is read. -/
structure PdfPage where
  text : Except Unit (Option String)
  chars : Except Unit (List (Option String))
deriving DecidableEq

/-- One python-docx document: paragraph texts and table cell texts
(`para.text` / `cell.text`, which may be `None` — the source guards with
`or ""`). -/
structure DocxDoc where
  paragraphs : List (Option String)
  tables : List (List (List (Option String)))
deriving DecidableEq

/-- The ambient libraries, per path.  `fitzImages` gives, per PDF page,
how many embedded images `page.get_images(full=True)` yields (only the
count reaches the output: the saved file name is derived from page and
image index).  `imagePixels` is the pixel grid of
`Image.open(p).convert("RGB").resize((128, 128))` — the decode, 3-channel
conversion and fixed downsample are the library's work, so the
environment hands the resulting pixels, or `.error` if the decode
raises. -/
structure Env where
  pathExists : String → Bool
  pdfPages : String → Except Unit (List PdfPage)
  fitzImages : String → Except Unit (List Nat)
  imagePixels : String → Except Unit (List Rgb)
  docxDoc : String → Except Unit DocxDoc

/-! ## Dominant-color extractor (`utils.image_dominant_colors`) -/

/-- One hex digit, uppercase (the `X` of `"{:02X}"`). -/
def hexDigit : Nat → Char
  | 0 => '0' | 1 => '1' | 2 => '2' | 3 => '3' | 4 => '4'
  | 5 => '5' | 6 => '6' | 7 => '7' | 8 => '8' | 9 => '9'
  | 10 => 'A' | 11 => 'B' | 12 => 'C' | 13 => 'D' | 14 => 'E' | 15 => 'F'
  | _ + 16 => '*'

/-- Hex digits of `n`, most significant first, no padding.  `fuel` only
bounds the recursion (`n` itself is always enough). -/
def natToHexAux : Nat → Nat → List Char
  | 0, n => [hexDigit n]
  | fuel + 1, n =>
    if n < 16 then [hexDigit n] else natToHexAux fuel (n / 16) ++ [hexDigit (n % 16)]

def natToHex (n : Nat) : List Char := natToHexAux n n

/-- `"{:02X}".format n`: uppercase hex, zero-padded to width at least 2. -/
def pad2Hex (n : Nat) : List Char :=
  let ds := natToHex n
  if ds.length < 2 then List.replicate (2 - ds.length) '0' ++ ds else ds

/-- `utils.rgb_to_hex`: `"#{:02X}{:02X}{:02X}".format(*rgb)`. -/
def rgb_to_hex (c : Rgb) : String :=
  String.mk ('#' :: (pad2Hex c.1 ++ pad2Hex c.2.1 ++ pad2Hex c.2.2))

/-- PIL `img.getcolors(maxcolors)`: `None` when the image has more than
`maxcolors` distinct colors, else the list of `(count, color)` pairs
(PIL fixes no particular order; the distinct colors are enumerated here
via `List.dedup`). -/
def getcolors (px : List Rgb) (maxcolors : Nat) : Option (List (Nat × Rgb)) :=
  let distinct := px.dedup
  if maxcolors < distinct.length then none
  else some (distinct.map (fun c => (px.count c, c)))

/-- The key order of `colors.sort(key=lambda x: x[0], reverse=True)`:
count descending. -/
def countGe (a b : Nat × Rgb) : Prop := b.1 ≤ a.1

instance : DecidableRel countGe := fun a b => Nat.decLe b.1 a.1

instance : IsTotal (Nat × Rgb) countGe :=
  ⟨fun a b => Nat.le_total b.1 a.1⟩

instance : IsTrans (Nat × Rgb) countGe :=
  ⟨fun _ _ _ h1 h2 => Nat.le_trans h2 h1⟩

/-- The `seen`/`deduped` loop of `image_dominant_colors`: keep the first
occurrence of each string. -/
def dedupKeepFirst (seen : List String) : List String → List String
  | [] => []
  | h :: rest =>
    if seen.contains h then dedupKeepFirst seen rest
    else h :: dedupKeepFirst (h :: seen) rest

/-- The pixel-processing tail of `image_dominant_colors`:
`colors = img.getcolors(...)`, `if not colors: return []` (covering both
`None` and the empty list), sort by count descending, take `top_n`,
convert to hex, drop duplicates preserving order. -/
def dominantFromPixels (px : List Rgb) (top_n : Nat) : List String :=
  match getcolors px (128 * 128) with
  | none => []
  | some colors =>
    if colors = [] then []
    else
      let sortedColors := List.insertionSort countGe colors
      let top := sortedColors.take top_n
      let hex_colors := top.map (fun c => rgb_to_hex c.2)
      dedupKeepFirst [] hex_colors

/-- `utils.image_dominant_colors`.  The source checks only
`os.path.exists`; a decode failure on an existing path is uncaught and
propagates (`.error`). -/
def image_dominant_colors (env : Env) (image_path : String) (top_n : Nat) :
    Except Unit (List String) :=
  if !env.pathExists image_path then .ok []
  else
    match env.imagePixels image_path with
    | .error e => .error e
    | .ok px => .ok (dominantFromPixels px top_n)

/-! ## `collections.Counter` (insertion-ordered, as Python dicts are) -/

abbrev Counter := List (String × Nat)

/-- `counter[k] += n`, appending a new key at the end. -/
def counterAddN (c : Counter) (k : String) (n : Nat) : Counter :=
  if c.any (fun kv => kv.1 == k) then
    c.map (fun kv => if kv.1 == k then (kv.1, kv.2 + n) else kv)
  else c ++ [(k, n)]

/-- `counter[k] += 1`. -/
def counterAdd (c : Counter) (k : String) : Counter := counterAddN c k 1

/-- `counter.update(other)`: add the other counter's counts, appending
unseen keys in the other's order. -/
def counterUpdate (c d : Counter) : Counter :=
  d.foldl (fun acc kv => counterAddN acc kv.1 kv.2) c

/-- The key order of `Counter.most_common`: count descending (stable, so
ties keep insertion order). -/
def cntGe (a b : String × Nat) : Prop := b.2 ≤ a.2

instance : DecidableRel cntGe := fun a b => Nat.decLe b.2 a.2

/-- `counter.most_common n`. -/
def mostCommon (c : Counter) (n : Nat) : List (String × Nat) :=
  (List.insertionSort cntGe c).take n

/-! ## Python `set` accumulation (insertion-ordered model) -/

/-- `s.add x` on the hex-color set, modelled as a duplicate-free list. -/
def setInsert (s : List String) (x : String) : List String :=
  if s.contains x then s else s ++ [x]

/-- `s.update xs` / repeated `s.add`. -/
def setUpdateList (s : List String) (xs : List String) : List String :=
  xs.foldl setInsert s

/-! ## PDF extractor (`extractors._extract_from_pdf`) -/

/-- The inner `for char in page.chars` loop:
`fname = char.get("fontname"); if fname: fonts[fname] += 1`. -/
def fontTally (fonts : Counter) (cs : List (Option String)) : Counter :=
  cs.foldl
    (fun f o =>
      match o with
      | some nm => if nm ≠ "" then counterAdd f nm else f
      | none => f)
    fonts

/-- The page loop of the pdfplumber `try` block.  `page.extract_text()`
raising aborts the whole block (the accumulators keep what earlier pages
contributed); a failure reading `page.chars` is caught by the inner
`try` and only skips that page's font tally. -/
def pdfTextFontsPass : List PdfPage → List String → Counter → List String × Counter
  | [], hexs, fonts => (hexs, fonts)
  | pg :: rest, hexs, fonts =>
    match pg.text with
    | .error _ => (hexs, fonts)
    | .ok t =>
      let hexs2 := setUpdateList hexs (extract_hex_colors_from_text (some (t.getD "")))
      let fonts2 :=
        match pg.chars with
        | .error _ => fonts
        | .ok cs => fontTally fonts cs
      pdfTextFontsPass rest hexs2 fonts2

/-- The PyMuPDF `try` block: for every page index and image index, the
extracted image is saved under
`os.path.join(dirname(path) or ".", "_extracted_logos")` as
`safe_filename(f"pdf_p{page_index}_img{img_index}.png")` and its path
recorded.  The model's one failure point is opening the document, which
yields no candidates (the source's `try` would likewise keep the paths
saved before a mid-loop raise; the environment does not represent
mid-iteration raises). -/
def pdfImagesPass (path : String) (fitz : Except Unit (List Nat)) : List String :=
  match fitz with
  | .error _ => []
  | .ok pageCounts =>
    let base_dir := if pyDirname path = "" then "." else pyDirname path
    let logo_out_dir := pyJoin base_dir "_extracted_logos"
    (pageCounts.enum.map (fun pc =>
      (List.range pc.2).map (fun img_index =>
        pyJoin logo_out_dir
          (safe_filename
            ("pdf_p" ++ toString pc.1 ++ "_img" ++ toString img_index ++ ".png"))))).flatten

/-- The whole pdfplumber `try` block: a failure opening the document (or
anywhere the outer `try` reaches) leaves both accumulators as they
stand — empty at the start. -/
def pdfTextFonts (env : Env) (path : String) : List String × Counter :=
  match env.pdfPages path with
  | .error _ => ([], [])
  | .ok pages => pdfTextFontsPass pages [] []

/-- `extractors._extract_from_pdf`: `(sorted(hex_colors), fonts,
image_paths)`.  The two `try` blocks are independent: a pdfplumber
failure leaves the images pass untouched and vice versa. -/
def _extract_from_pdf (env : Env) (path : String) : List String × Counter × List String :=
  let tf := pdfTextFonts env path
  (pySortStrings tf.1, tf.2, pdfImagesPass path (env.fitzImages path))

/-- `extractors._extract_from_docx`: scan every paragraph and every table
cell, union into a set, return it sorted.  The model's one failure point
is opening the document, which yields the empty result (in the source a
raise midway through the loops would keep the colors accumulated so
far; the environment does not represent mid-iteration raises). -/
def _extract_from_docx (env : Env) (path : String) : List String :=
  match env.docxDoc path with
  | .error _ => []
  | .ok d =>
    let afterParas := d.paragraphs.foldl
      (fun hexs t => setUpdateList hexs (extract_hex_colors_from_text (some (t.getD ""))))
      []
    let afterTables := d.tables.foldl
      (fun hexs tbl => tbl.foldl
        (fun hexs row => row.foldl
          (fun hexs cell =>
            setUpdateList hexs (extract_hex_colors_from_text (some (cell.getD ""))))
          hexs)
        hexs)
      afterParas
    pySortStrings afterTables

/-! ## Profile assembler (`extractors.extract_brand_from_files`) -/

/-- The assembler's accumulators: `all_hex_colors` (a set),
`all_fonts` (a Counter), `logo_candidates`, `image_candidates`. -/
structure SigAcc where
  hexs : List String
  fonts : Counter
  logoC : List String
  imgC : List String
deriving DecidableEq

def initAcc : SigAcc := ⟨[], [], [], []⟩

def imageExts : List String := [".png", ".jpg", ".jpeg", ".webp"]

/-- One iteration of the `for path in file_paths` loop. -/
def stepFile (env : Env) (acc : SigAcc) (path : String) : SigAcc :=
  if path = "" || !env.pathExists path then acc
  else
    let lower := pyLowerString path
    if pyEndsWith lower ".pdf" then
      let r := _extract_from_pdf env path
      { hexs := setUpdateList acc.hexs r.1,
        fonts := counterUpdate acc.fonts r.2.1,
        logoC := acc.logoC ++ r.2.2,
        imgC := acc.imgC ++ r.2.2 }
    else if pyEndsWith lower ".docx" then
      { acc with hexs := setUpdateList acc.hexs (_extract_from_docx env path) }
    else if imageExts.any (fun e => pyEndsWith lower e) then
      { acc with imgC := acc.imgC ++ [path] }
    else acc

/-- The whole accumulation loop. -/
def collectSignals (env : Env) : List String → SigAcc → SigAcc
  | [], acc => acc
  | path :: rest, acc => collectSignals env rest (stepFile env acc path)

/-- The logo selection: `if logo_candidates: ... elif image_candidates:
... ` (else `logo_path` stays `None`). -/
def chooseLogo (logoC imgC : List String) : Option String :=
  match logoC with
  | l :: _ => some l
  | [] =>
    match imgC with
    | i :: _ => some i
    | [] => none

/-- Python truthiness of an `Optional[str]`: `None` and `""` are falsy. -/
def pyTruthyOpt : Option String → Bool
  | some s => !(s == "")
  | none => false

/-- The dominant-color step: `image_dominant_colors` against the chosen
logo if one was chosen (truthily), else against the first image
candidate if any, else the empty list. -/
def dominantStep (env : Env) (acc : SigAcc) (logo : Option String) :
    Except Unit (List String) :=
  if pyTruthyOpt logo then image_dominant_colors env (logo.getD "") 5
  else if acc.imgC ≠ [] then image_dominant_colors env (acc.imgC.headD "") 5
  else .ok []

/-- The field assignments of `extract_brand_from_files` after the
dominant-color step, ending in `profile.ensure_palette()`. -/
def assembleProfile (acc : SigAcc) (logo : Option String)
    (dominant_colors : List String) : BrandProfile :=
  let hexSorted := pySortStrings acc.hexs
  let palette_source := if dominant_colors ≠ [] then dominant_colors else hexSorted
  let p1 : BrandProfile :=
    { logo_path := logo,
      detected_colors := dominant_colors,
      hex_colors_in_text := hexSorted,
      primary_color := palette_source.head?,
      secondary_color := palette_source[1]?,
      accent_color := palette_source[2]? }
  let p2 :=
    if acc.fonts ≠ [] then
      let detected := (mostCommon acc.fonts 5).map Prod.fst
      { p1 with
        detected_fonts := detected,
        font_heading := _font_family_from_pdf_name (some (detected.headD "")),
        font_body := _font_family_from_pdf_name (some (detected.headD "")) }
    else p1
  p2.ensure_palette

/-- `extractors.extract_brand_from_files`.  The only uncaught failure
point is `image_dominant_colors` on an existing but undecodable logo
candidate, so the result is `Except`. -/
def extract_brand_from_files (env : Env) (file_paths : List String) :
    Except Unit BrandProfile :=
  let acc := collectSignals env file_paths initAcc
  let logo := chooseLogo acc.logoC acc.imgC
  match dominantStep env acc logo with
  | .error e => .error e
  | .ok dominant_colors => .ok (assembleProfile acc logo dominant_colors)

/-! ## Concrete environments for the end-to-end scenarios -/

/-- An environment where nothing exists and every library call raises. -/
def envEmpty : Env :=
  { pathExists := fun _ => false,
    pdfPages := fun _ => .error (),
    fitzImages := fun _ => .error (),
    imagePixels := fun _ => .error (),
    docxDoc := fun _ => .error () }

/-- The DOCX of the end-to-end scenario. -/
def docxBrandDoc : DocxDoc :=
  { paragraphs := [some "Our brand color is #2563EB and accent #0EA5E9."],
    tables := [] }

/-- One readable DOCX at `"brand.docx"`, nothing else. -/
def envDocx : Env :=
  { pathExists := fun p => p == "brand.docx",
    pdfPages := fun _ => .error (),
    fitzImages := fun _ => .error (),
    imagePixels := fun _ => .error (),
    docxDoc := fun p => if p == "brand.docx" then .ok docxBrandDoc else .error () }

example :
    extract_brand_from_files envEmpty [] =
    .ok { chart_palette :=
            ["#111827", "#2563EB", "#0EA5E9", "#22C55E", "#F97316", "#E11D48",
             "#A855F7"] } := by
  decide

example :
    extract_brand_from_files envDocx ["brand.docx"] =
    .ok { primary_color := some "#0EA5E9",
          secondary_color := some "#2563EB",
          hex_colors_in_text := ["#0EA5E9", "#2563EB"],
          chart_palette :=
            ["#0EA5E9", "#2563EB", "#111827", "#22C55E", "#F97316", "#E11D48",
             "#A855F7"] } := by
  decide

/-- One existing path `"logo.png"` whose image decode raises. -/
def envImgBad : Env :=
  { pathExists := fun p => p == "logo.png",
    pdfPages := fun _ => .error (),
    fitzImages := fun _ => .error (),
    imagePixels := fun _ => .error (),
    docxDoc := fun _ => .error () }

/-- A single-page PDF page whose text extraction raises while its
per-character font data is readable. -/
def pageTextFails : PdfPage :=
  { text := .error (), chars := .ok [some "Helvetica"] }

/-- One PDF `"a.pdf"` whose only page is `pageTextFails` and whose
embedded-image extraction yields one image on that page. -/
def envC3 : Env :=
  { pathExists := fun p => p == "a.pdf",
    pdfPages := fun p => if p == "a.pdf" then .ok [pageTextFails] else .error (),
    fitzImages := fun p => if p == "a.pdf" then .ok [1] else .error (),
    imagePixels := fun _ => .error (),
    docxDoc := fun _ => .error () }

/-- One PDF `"deck.pdf"` yielding one embedded image, and one standalone
JPEG `"photo.jpg"`. -/
def envPdfJpeg : Env :=
  { pathExists := fun p => p == "deck.pdf" || p == "photo.jpg",
    pdfPages := fun _ => .error (),
    fitzImages := fun p => if p == "deck.pdf" then .ok [1] else .error (),
    imagePixels := fun _ => .error (),
    docxDoc := fun _ => .error () }

/-! ## Specification-side predicates (what the spec's sentences assert) -/

/-- A token the spec calls valid: 3 or 6 hex digits. -/
def IsHexToken (t : List Char) : Prop :=
  (t.length = 3 ∨ t.length = 6) ∧ ∀ c ∈ t, isHexDigitChar c = true

/-- The token `t` occurs in `s` as `#` followed by `t` with a hard
boundary after the digits (what is next is not a word character, or the
input ends). -/
def TokenOccurs (s t : List Char) : Prop :=
  ∃ pre post, s = pre ++ '#' :: (t ++ post) ∧ IsHexToken t ∧ boundaryOk post = true

/-- A path the `for` loop treats as a readable PDF. -/
def isPdfPath (env : Env) (p : String) : Bool :=
  !(p == "") && env.pathExists p && pyEndsWith (pyLowerString p) ".pdf"

/-- A path the `for` loop treats as a standalone image. -/
def isImagePath (env : Env) (p : String) : Bool :=
  !(p == "") && env.pathExists p && !pyEndsWith (pyLowerString p) ".pdf" &&
    !pyEndsWith (pyLowerString p) ".docx" &&
    imageExts.any (fun e => pyEndsWith (pyLowerString p) e)

/-- All candidates surfaced by the PDFs' embedded-image extraction, in
input order (the spec's "first candidate surfaced by any PDF"). -/
def pdfSurfacedImages (env : Env) (paths : List String) : List String :=
  ((paths.filter (fun p => isPdfPath env p)).map
    (fun p => (_extract_from_pdf env p).2.2)).flatten

/-- The standalone image files of the input, in input order. -/
def standaloneImages (env : Env) (paths : List String) : List String :=
  paths.filter (fun p => isImagePath env p)

/-- How often a hex string names a pixel of the (resized) image. -/
def hexFreq (px : List Rgb) (h : String) : Nat :=
  (px.filter (fun c => rgb_to_hex c == h)).length

/-! ## Helper lemmas: the string order and `sorted()` -/

theorem listCharLe_total : ∀ a b : List Char,
    listCharLe a b = true ∨ listCharLe b a = true
  | [], _ => Or.inl rfl
  | _ :: _, [] => Or.inr rfl
  | a :: as, b :: bs => by
    rcases lt_trichotomy a b with h | h | h
    · exact Or.inl (by simp [listCharLe, h])
    · subst h
      rcases listCharLe_total as bs with ih | ih
      · exact Or.inl (by simp [listCharLe, lt_irrefl, ih])
      · exact Or.inr (by simp [listCharLe, lt_irrefl, ih])
    · exact Or.inr (by simp [listCharLe, h])

theorem listCharLe_trans : ∀ a b c : List Char,
    listCharLe a b = true → listCharLe b c = true → listCharLe a c = true
  | [], _, _, _, _ => rfl
  | _ :: _, [], _, h1, _ => by simp [listCharLe] at h1
  | _ :: _, _ :: _, [], _, h2 => by simp [listCharLe] at h2
  | a :: as, b :: bs, c :: cs, h1, h2 => by
    rcases lt_trichotomy a b with hab | hab | hab
    · rcases lt_trichotomy b c with hbc | hbc | hbc
      · simp [listCharLe, lt_trans hab hbc]
      · subst hbc; simp [listCharLe, hab]
      · rw [listCharLe, if_neg (lt_asymm hbc), if_pos hbc] at h2
        exact absurd h2 (by simp)
    · subst hab
      rcases lt_trichotomy a c with hac | hac | hac
      · simp [listCharLe, hac]
      · subst hac
        rw [listCharLe, if_neg (lt_irrefl a), if_neg (lt_irrefl a)] at h1 h2
        rw [listCharLe, if_neg (lt_irrefl a), if_neg (lt_irrefl a)]
        exact listCharLe_trans as bs cs h1 h2
      · rw [listCharLe, if_neg (lt_asymm hac), if_pos hac] at h2
        exact absurd h2 (by simp)
    · rw [listCharLe, if_neg (lt_asymm hab), if_pos hab] at h1
      exact absurd h1 (by simp)

instance : IsTotal String pyStrLe :=
  ⟨fun a b => listCharLe_total a.data b.data⟩

instance : IsTrans String pyStrLe :=
  ⟨fun a b c => listCharLe_trans a.data b.data c.data⟩

theorem pySortStrings_sorted (l : List String) :
    (pySortStrings l).Sorted pyStrLe :=
  List.sorted_insertionSort pyStrLe l

theorem pySortStrings_perm (l : List String) : List.Perm (pySortStrings l) l :=
  List.perm_insertionSort pyStrLe l

theorem mem_pySortStrings {x : String} {l : List String} :
    x ∈ pySortStrings l ↔ x ∈ l :=
  List.mem_insertionSort pyStrLe

theorem pySortStrings_nodup {l : List String} (h : l.Nodup) :
    (pySortStrings l).Nodup :=
  (pySortStrings_perm l).nodup_iff.mpr h

/-! ## Helper lemmas: the hex-color scanner -/

theorem hex_isWord {c : Char} (h : isHexDigitChar c = true) : isWordChar c = true := by
  simp only [isHexDigitChar, Bool.or_eq_true, Bool.and_eq_true, decide_eq_true_eq] at h
  simp only [isWordChar, Bool.or_eq_true, Bool.and_eq_true, decide_eq_true_eq, beq_iff_eq]
  rcases h with (⟨h1, h2⟩ | ⟨h1, h2⟩) | ⟨h1, h2⟩
  · exact Or.inl (Or.inr ⟨h1, h2⟩)
  · exact Or.inl (Or.inl (Or.inr ⟨h1, le_trans h2 (by decide)⟩))
  · exact Or.inl (Or.inl (Or.inl ⟨h1, le_trans h2 (by decide)⟩))

theorem hash_not_hex : isHexDigitChar '#' = false := by decide

theorem takeHexRun_some_spec : ∀ {n : Nat} {cs t : List Char},
    takeHexRun n cs = some t →
    t.length = n ∧ (∀ c ∈ t, isHexDigitChar c = true) ∧ cs = t ++ cs.drop n := by
  intro n
  induction n with
  | zero =>
    intro cs t h
    simp only [takeHexRun, Option.some.injEq] at h
    subst h
    simp
  | succ n ih =>
    intro cs t h
    cases cs with
    | nil => exact absurd h (by simp [takeHexRun])
    | cons c cs' =>
      rw [takeHexRun] at h
      by_cases hc : isHexDigitChar c = true
      · rw [if_pos hc] at h
        cases ht' : takeHexRun n cs' with
        | none => rw [ht'] at h; exact absurd h (by simp)
        | some t' =>
          rw [ht'] at h
          simp only [Option.map_some', Option.some.injEq] at h
          subst h
          obtain ⟨hlen, hhex, hdec⟩ := ih ht'
          refine ⟨by simp [hlen], ?_, ?_⟩
          · intro d hd
            rcases List.mem_cons.mp hd with rfl | hd
            · exact hc
            · exact hhex d hd
          · rw [List.drop_succ_cons]
            exact congrArg (c :: ·) hdec
      · rw [if_neg hc] at h
        exact absurd h (by simp)

theorem takeHexRun_complete : ∀ (t post : List Char),
    (∀ c ∈ t, isHexDigitChar c = true) →
    takeHexRun t.length (t ++ post) = some t
  | [], _, _ => rfl
  | c :: t, post, h => by
    have hc := h c (List.mem_cons_self c t)
    rw [List.length_cons, List.cons_append, takeHexRun, if_pos hc,
      takeHexRun_complete t post (fun d hd => h d (List.mem_cons_of_mem c hd))]
    rfl

theorem tryWidth_some_spec {n : Nat} {cs t : List Char} (h : tryWidth n cs = some t) :
    t.length = n ∧ (∀ c ∈ t, isHexDigitChar c = true) ∧ cs = t ++ cs.drop n ∧
      boundaryOk (cs.drop n) = true := by
  unfold tryWidth at h
  cases htk : takeHexRun n cs with
  | none =>
    rw [htk] at h
    have h' : (none : Option (List Char)) = some t := h
    exact absurd h' (by simp)
  | some t' =>
    rw [htk] at h
    have h' : (if boundaryOk (cs.drop n) = true then some t' else none) = some t := h
    by_cases hb : boundaryOk (cs.drop n) = true
    · rw [if_pos hb] at h'
      injection h' with h'
      subst h'
      obtain ⟨h1, h2, h3⟩ := takeHexRun_some_spec htk
      exact ⟨h1, h2, h3, hb⟩
    · rw [if_neg hb] at h'
      exact absurd h' (by simp)

theorem tryWidth_complete (t post : List Char)
    (hhex : ∀ c ∈ t, isHexDigitChar c = true) (hb : boundaryOk post = true) :
    tryWidth t.length (t ++ post) = some t := by
  unfold tryWidth
  rw [takeHexRun_complete t post hhex]
  show (if boundaryOk ((t ++ post).drop t.length) = true then some t else none) = some t
  rw [List.drop_left, if_pos hb]

theorem tryMatch_some_spec {cs t : List Char} (h : tryMatch cs = some t) :
    IsHexToken t ∧ cs = t ++ cs.drop t.length ∧
      boundaryOk (cs.drop t.length) = true := by
  unfold tryMatch at h
  cases h6 : tryWidth 6 cs with
  | some t6 =>
    rw [h6] at h
    have h' : some t6 = some t := h
    injection h' with h'
    subst h'
    obtain ⟨h1, h2, h3, h4⟩ := tryWidth_some_spec h6
    exact ⟨⟨Or.inr h1, h2⟩, by rw [h1]; exact h3, by rw [h1]; exact h4⟩
  | none =>
    rw [h6] at h
    have h' : tryWidth 3 cs = some t := h
    obtain ⟨h1, h2, h3, h4⟩ := tryWidth_some_spec h'
    exact ⟨⟨Or.inl h1, h2⟩, by rw [h1]; exact h3, by rw [h1]; exact h4⟩

theorem tryMatch_complete {t post : List Char} (ht : IsHexToken t)
    (hb : boundaryOk post = true) :
    tryMatch (t ++ post) = some t := by
  obtain ⟨hlen, hhex⟩ := ht
  rcases hlen with hlen | hlen
  · have h6 : tryWidth 6 (t ++ post) = none := by
      unfold tryWidth
      cases htk : takeHexRun 6 (t ++ post) with
      | none => rfl
      | some t6 =>
        exfalso
        obtain ⟨hl6, hhex6, hdec6⟩ := takeHexRun_some_spec htk
        cases post with
        | nil =>
          have hle := congrArg List.length hdec6
          simp only [List.length_append, List.length_nil] at hle
          omega
        | cons p rest =>
          rcases List.append_eq_append_iff.mp hdec6 with ⟨a', ha1, ha2⟩ | ⟨c', hc1, _⟩
          · cases a' with
            | nil =>
              rw [List.append_nil] at ha1
              subst ha1
              omega
            | cons q a'' =>
              have hq : p = q := by
                have hh := congrArg List.head? ha2
                simp at hh
                exact hh
              have hqmem : q ∈ t6 := by
                rw [ha1]; exact List.mem_append_right _ (List.mem_cons_self q a'')
              have hword := hex_isWord (hhex6 q hqmem)
              rw [← hq] at hword
              simp [boundaryOk, hword] at hb
          · have hlc : t.length = t6.length + c'.length := by
              rw [hc1]; simp
            omega
    unfold tryMatch
    rw [h6]
    show tryWidth 3 (t ++ post) = some t
    rw [← hlen]
    exact tryWidth_complete t post hhex hb
  · have h6 := tryWidth_complete t post hhex hb
    rw [hlen] at h6
    unfold tryMatch
    rw [h6]



theorem findHexAux_congr : ∀ (f g : Nat) (s : List Char),
    s.length ≤ f → s.length ≤ g → findHexAux f s = findHexAux g s := by
  intro f
  induction f with
  | zero =>
    intro g s hf _
    have : s = [] := List.eq_nil_of_length_eq_zero (Nat.le_zero.mp hf)
    subst this
    cases g <;> rfl
  | succ f ih =>
    intro g s hf hg
    cases s with
    | nil => cases g <;> rfl
    | cons c rest =>
      cases g with
      | zero => exact absurd hg (by simp)
      | succ g =>
        rw [findHexAux, findHexAux]
        simp only [List.length_cons, Nat.succ_le_succ_iff] at hf hg
        by_cases hc : c = '#'
        · rw [if_pos hc, if_pos hc]
          cases ht : tryMatch rest with
          | some t =>
            show t :: findHexAux f (rest.drop t.length) =
              t :: findHexAux g (rest.drop t.length)
            have hd : (rest.drop t.length).length ≤ rest.length := by
              simp [List.length_drop]
            rw [ih g (rest.drop t.length) (le_trans hd hf) (le_trans hd hg)]
          | none =>
            show findHexAux f rest = findHexAux g rest
            exact ih g rest hf hg
        · rw [if_neg hc, if_neg hc]
          exact ih g rest hf hg

theorem findHexMatches_cons_ne {c : Char} {rest : List Char} (h : c ≠ '#') :
    findHexMatches (c :: rest) = findHexMatches rest := by
  unfold findHexMatches
  rw [List.length_cons, findHexAux, if_neg h]

theorem findHexMatches_hash_some {rest t : List Char} (h : tryMatch rest = some t) :
    findHexMatches ('#' :: rest) = t :: findHexMatches (rest.drop t.length) := by
  unfold findHexMatches
  rw [List.length_cons, findHexAux, if_pos rfl, h]
  have hd : (rest.drop t.length).length ≤ rest.length := by
    simp [List.length_drop]
  show t :: findHexAux rest.length (rest.drop t.length) =
    t :: findHexAux (rest.drop t.length).length (rest.drop t.length)
  rw [findHexAux_congr rest.length (rest.drop t.length).length (rest.drop t.length) hd
    (le_refl _)]

theorem findHexMatches_hash_none {rest : List Char} (h : tryMatch rest = none) :
    findHexMatches ('#' :: rest) = findHexMatches rest := by
  unfold findHexMatches
  rw [List.length_cons, findHexAux, if_pos rfl, h]

theorem tokenOccurs_cons {c : Char} {rest t : List Char} (hne : c ≠ '#') :
    TokenOccurs (c :: rest) t ↔ TokenOccurs rest t := by
  constructor
  · rintro ⟨pre, post, heq, htok, hb⟩
    cases pre with
    | nil =>
      exfalso
      have : c = '#' := by
        have := congrArg List.head? heq
        simpa using this
      exact hne this
    | cons d pre' =>
      have hd := congrArg List.head? heq
      simp at hd
      have htail := congrArg List.tail heq
      simp at htail
      exact ⟨pre', post, htail, htok, hb⟩
  · rintro ⟨pre, post, heq, htok, hb⟩
    exact ⟨c :: pre, post, by rw [List.cons_append, heq], htok, hb⟩

theorem mem_findHexMatches_aux : ∀ (n : Nat) (s : List Char), s.length ≤ n →
    ∀ t, (t ∈ findHexMatches s ↔ TokenOccurs s t) := by
  intro n
  induction n with
  | zero =>
    intro s hs t
    have hnil : s = [] := List.length_eq_zero.mp (Nat.le_zero.mp hs)
    subst hnil
    constructor
    · intro h
      exact absurd h (by simp [findHexMatches, findHexAux])
    · rintro ⟨pre, post, heq, _, _⟩
      simp at heq
  | succ n ih =>
    intro s hs t
    cases s with
    | nil =>
      constructor
      · intro h
        exact absurd h (by simp [findHexMatches, findHexAux])
      · rintro ⟨pre, post, heq, _, _⟩
        simp at heq
    | cons c rest =>
      simp only [List.length_cons, Nat.succ_le_succ_iff] at hs
      by_cases hc : c = '#'
      · subst hc
        cases ht : tryMatch rest with
        | none =>
          rw [findHexMatches_hash_none ht, ih rest hs t]
          constructor
          · rintro ⟨pre, post, heq, htok, hb⟩
            exact ⟨'#' :: pre, post, by rw [List.cons_append, heq], htok, hb⟩
          · rintro ⟨pre, post, heq, htok, hb⟩
            cases pre with
            | nil =>
              exfalso
              have htail := congrArg List.tail heq
              simp at htail
              rw [htail, tryMatch_complete htok hb] at ht
              exact Option.noConfusion ht
            | cons d pre' =>
              have htail := congrArg List.tail heq
              simp at htail
              exact ⟨pre', post, htail, htok, hb⟩
        | some t0 =>
          rw [findHexMatches_hash_some ht]
          obtain ⟨htok0, hdec0, hb0⟩ := tryMatch_some_spec ht
          have hdlen : (rest.drop t0.length).length ≤ n :=
            le_trans (by simp [List.length_drop]) hs
          constructor
          · intro hmem
            rcases List.mem_cons.mp hmem with heqt | hmem
            · refine ⟨[], rest.drop t0.length, ?_, ?_, ?_⟩
              · rw [List.nil_append, heqt, ← hdec0]
              · rw [heqt]; exact htok0
              · exact hb0
            · obtain ⟨pre, post, heq, htok, hb⟩ := (ih _ hdlen t).mp hmem
              refine ⟨'#' :: t0 ++ pre, post, ?_, htok, hb⟩
              calc ('#' :: rest : List Char)
                  = '#' :: (t0 ++ rest.drop t0.length) := by rw [← hdec0]
                _ = '#' :: (t0 ++ (pre ++ '#' :: (t ++ post))) := by rw [heq]
                _ = ('#' :: t0 ++ pre) ++ '#' :: (t ++ post) := by simp
          · rintro ⟨pre, post, heq, htok, hb⟩
            cases pre with
            | nil =>
              have htail := congrArg List.tail heq
              simp at htail
              have hcm := tryMatch_complete htok hb
              rw [← htail, ht] at hcm
              injection hcm with hcm
              subst hcm
              exact List.mem_cons_self _ _
            | cons d pre' =>
              have htail := congrArg List.tail heq
              simp at htail
              have hcomb : pre' ++ '#' :: (t ++ post) = t0 ++ rest.drop t0.length := by
                rw [← htail, ← hdec0]
              rcases List.append_eq_append_iff.mp hcomb with ⟨a', ha1, ha2⟩ | ⟨c', _, hc2⟩
              · cases a' with
                | nil =>
                  rw [List.append_nil] at ha1
                  simp only [List.nil_append] at ha2
                  refine List.mem_cons.mpr (Or.inr ((ih _ hdlen t).mpr
                    ⟨[], post, ?_, htok, hb⟩))
                  rw [List.nil_append]
                  exact ha2.symm
                | cons q a'' =>
                  exfalso
                  have hq : '#' = q := by
                    have hh := congrArg List.head? ha2
                    simp at hh
                    exact hh
                  have hqmem : q ∈ t0 := by
                    rw [ha1]
                    exact List.mem_append_right _ (List.mem_cons_self _ _)
                  have hqhex := htok0.2 q hqmem
                  rw [← hq] at hqhex
                  exact absurd hqhex (by decide)
              · exact List.mem_cons.mpr (Or.inr ((ih _ hdlen t).mpr
                  ⟨c', post, hc2, htok, hb⟩))
      · rw [findHexMatches_cons_ne hc, tokenOccurs_cons hc]
        exact ih rest hs t

theorem mem_findHexMatches {s t : List Char} :
    t ∈ findHexMatches s ↔ TokenOccurs s t :=
  mem_findHexMatches_aux s.length s (le_refl _) t

/-! ## Claim C7 -/

/-- Claim C7: for every input text, the hex-color scanner returns exactly
the set of valid 3- or 6-digit hex tokens with a hard boundary after the
digits, normalized to uppercase, deduplicated and sorted in the
lexicographic string order; a hex-digit run of another length after `#`
yields nothing (e.g. the 8-digit run `#12345678`); and empty or `None`
input yields the empty sequence. -/
theorem C7_hex_scanner_exact (text : String) :
    ((extract_hex_colors_from_text (some text)).Sorted pyStrLe ∧
      (extract_hex_colors_from_text (some text)).Nodup ∧
      (∀ x, x ∈ extract_hex_colors_from_text (some text) ↔
        ∃ t, TokenOccurs text.data t ∧ x = pyUpperString (matchString t))) ∧
    extract_hex_colors_from_text none = [] ∧
    extract_hex_colors_from_text (some "") = [] ∧
    extract_hex_colors_from_text (some "#12345678") = [] := by
  refine ⟨⟨pySortStrings_sorted _, pySortStrings_nodup (List.nodup_dedup _), ?_⟩,
    by decide, by decide, by decide⟩
  intro x
  show x ∈ pySortStrings _ ↔ _
  rw [mem_pySortStrings, List.mem_dedup, List.mem_map]
  constructor
  · rintro ⟨tk, htk, rfl⟩
    exact ⟨tk, mem_findHexMatches.mp htk, rfl⟩
  · rintro ⟨tk, hocc, rfl⟩
    exact ⟨tk, mem_findHexMatches.mpr hocc, rfl⟩

/-! ## Claim C8 -/

/-- Claim C8: the font-name normalizer maps `"AAAAAA+Helvetica-Bold"` to
the quoted family `'Helvetica-'` (subset prefix dropped, `Bold`
stripped) followed by the fixed fallback stack; `""` and `None` map to
exactly the fixed default stack; and every input produces a font stack
(the default one, or a quoted family followed by the fixed tail) — the
function is total and never raises. -/
theorem C8_font_normalizer :
    (_font_family_from_pdf_name (some "AAAAAA+Helvetica-Bold") =
      "'Helvetica-', system-ui, -apple-system, BlinkMacSystemFont, 'Segoe UI', sans-serif") ∧
    _font_family_from_pdf_name (some "") = defaultFontStack ∧
    _font_family_from_pdf_name none = defaultFontStack ∧
    ∀ fn : Option String,
      _font_family_from_pdf_name fn = defaultFontStack ∨
      ∃ fam : String, _font_family_from_pdf_name fn = "'" ++ fam ++ fontStackTail := by
  refine ⟨by decide, by decide, rfl, ?_⟩
  intro fn
  match fn with
  | none => exact Or.inl rfl
  | some s =>
    by_cases hs : s = ""
    · exact Or.inl (by simp [_font_family_from_pdf_name, hs])
    · right
      simp only [_font_family_from_pdf_name, if_neg hs]
      exact ⟨_, rfl⟩

/-! ## Helper lemmas: `ensure_palette` -/

theorem mem_pyDedupTruthy : ∀ {l seen : List String} {x : String},
    x ∈ pyDedupTruthy seen l ↔ (x ∈ l ∧ x ≠ "" ∧ x ∉ seen) := by
  intro l
  induction l with
  | nil => simp [pyDedupTruthy]
  | cons c rest ih =>
    intro seen x
    rw [pyDedupTruthy]
    by_cases hc1 : c = ""
    · rw [if_neg (by simp [hc1])]
      rw [ih]
      constructor
      · rintro ⟨h1, h2, h3⟩
        exact ⟨List.mem_cons_of_mem c h1, h2, h3⟩
      · rintro ⟨h1, h2, h3⟩
        rcases List.mem_cons.mp h1 with rfl | h1
        · exact absurd hc1 h2
        · exact ⟨h1, h2, h3⟩
    · by_cases hc2 : c ∈ seen
      · rw [if_neg (by simp [hc2])]
        rw [ih]
        constructor
        · rintro ⟨h1, h2, h3⟩
          exact ⟨List.mem_cons_of_mem c h1, h2, h3⟩
        · rintro ⟨h1, h2, h3⟩
          rcases List.mem_cons.mp h1 with rfl | h1
          · exact absurd hc2 h3
          · exact ⟨h1, h2, h3⟩
      · rw [if_pos (by simp [hc1, hc2])]
        constructor
        · intro hmem
          rcases List.mem_cons.mp hmem with rfl | hmem
          · exact ⟨List.mem_cons_self _ _, hc1, hc2⟩
          · obtain ⟨h1, h2, h3⟩ := ih.mp hmem
            exact ⟨List.mem_cons_of_mem c h1,
              h2, fun hx => h3 (List.mem_cons_of_mem c hx)⟩
        · rintro ⟨h1, h2, h3⟩
          by_cases hxc : x = c
          · exact hxc ▸ List.mem_cons_self _ _
          · rcases List.mem_cons.mp h1 with rfl | h1
            · exact absurd rfl hxc
            · exact List.mem_cons_of_mem c (ih.mpr ⟨h1, h2,
                fun hx => (List.mem_cons.mp hx).elim hxc h3⟩)

theorem pyDedupTruthy_nodup : ∀ (l seen : List String), (pyDedupTruthy seen l).Nodup := by
  intro l
  induction l with
  | nil => intro seen; simp [pyDedupTruthy]
  | cons c rest ih =>
    intro seen
    rw [pyDedupTruthy]
    by_cases hcond : (decide (c ≠ "") && !(seen.contains c)) = true
    · rw [if_pos hcond]
      refine List.nodup_cons.mpr ⟨?_, ih (c :: seen)⟩
      intro hmem
      exact (mem_pyDedupTruthy.mp hmem).2.2 (List.mem_cons_self c seen)
    · rw [if_neg hcond]
      exact ih seen

theorem ensure_palette_of_ne {p : BrandProfile} (h : p.chart_palette ≠ []) :
    BrandProfile.ensure_palette p = p := by
  unfold BrandProfile.ensure_palette
  rw [if_pos h]

theorem ensure_palette_chart_of_nil {p : BrandProfile} (h : p.chart_palette = []) :
    (BrandProfile.ensure_palette p).chart_palette =
      (pyDedupTruthy []
        (([p.primary_color, p.secondary_color, p.accent_color,
           some p.neutral_color].filterMap id).filter (fun c => c ≠ "") ++
         fallbackPalette)).take 8 := by
  unfold BrandProfile.ensure_palette
  rw [if_neg (not_not_intro h)]

theorem ensure_palette_chart_ne_nil (p : BrandProfile) :
    (BrandProfile.ensure_palette p).chart_palette ≠ [] := by
  by_cases h : p.chart_palette = []
  · rw [ensure_palette_chart_of_nil h]
    have hmem : "#2563EB" ∈ pyDedupTruthy []
        (([p.primary_color, p.secondary_color, p.accent_color,
           some p.neutral_color].filterMap id).filter (fun c => c ≠ "") ++
         fallbackPalette) := by
      rw [mem_pyDedupTruthy]
      exact ⟨List.mem_append_right _ (by decide), by decide, by simp⟩
    intro hnil
    rcases List.take_eq_nil_iff.mp hnil with h8 | hl
    · exact absurd h8 (by decide)
    · exact List.ne_nil_of_mem hmem hl
  · rw [ensure_palette_of_ne h]
    exact h

/-! ## Claim C1 -/

/-- Claim C1 as stated is false: it quantifies over all profiles,
including one whose `chart_palette` was already populated (as
`from_dict` permits) with duplicate entries — `ensure_palette` is a
no-op there and the duplicates survive. -/
theorem C1_counterexample :
    ¬ (1 ≤ (BrandProfile.ensure_palette
          { chart_palette := ["#111827", "#111827"] }).chart_palette.length ∧
       (BrandProfile.ensure_palette
          { chart_palette := ["#111827", "#111827"] }).chart_palette.length ≤ 8 ∧
       (BrandProfile.ensure_palette
          { chart_palette := ["#111827", "#111827"] }).chart_palette.Nodup) := by
  decide

/-- Claim C1, amended: after `ensure_palette` the palette is never empty;
and for every profile whose `chart_palette` was empty before the call
(the palettes `ensure_palette` itself builds), it moreover has length
between 1 and 8 and no duplicate entries. -/
theorem C1_palette_invariant (p : BrandProfile) :
    (BrandProfile.ensure_palette p).chart_palette ≠ [] ∧
    (p.chart_palette = [] →
      1 ≤ (BrandProfile.ensure_palette p).chart_palette.length ∧
      (BrandProfile.ensure_palette p).chart_palette.length ≤ 8 ∧
      (BrandProfile.ensure_palette p).chart_palette.Nodup) := by
  refine ⟨ensure_palette_chart_ne_nil p, fun h => ⟨?_, ?_, ?_⟩⟩
  · have hne := ensure_palette_chart_ne_nil p
    exact Nat.succ_le_of_lt (List.length_pos.mpr hne)
  · rw [ensure_palette_chart_of_nil h, List.length_take]
    exact min_le_left _ _
  · rw [ensure_palette_chart_of_nil h]
    exact List.Nodup.sublist (List.take_sublist _ _) (pyDedupTruthy_nodup _ _)

/-! ## Claim C9 -/

/-- Claim C9: `ensure_palette` is a no-op on any profile whose
`chart_palette` is already non-empty (every field unchanged), and it is
idempotent from every starting state. -/
theorem C9_ensure_palette_idempotent :
    (∀ p : BrandProfile, p.chart_palette ≠ [] → BrandProfile.ensure_palette p = p) ∧
    (∀ p : BrandProfile,
      BrandProfile.ensure_palette (BrandProfile.ensure_palette p) =
        BrandProfile.ensure_palette p) := by
  refine ⟨fun p h => ensure_palette_of_ne h, fun p => ?_⟩
  exact ensure_palette_of_ne (ensure_palette_chart_ne_nil p)

/-! ## Helper lemmas: the dominant-color extractor -/

theorem dedupKeepFirst_sublist : ∀ (l seen : List String),
    List.Sublist (dedupKeepFirst seen l) l
  | [], _ => List.nil_sublist _
  | h :: rest, seen => by
    rw [dedupKeepFirst]
    by_cases hc : seen.contains h = true
    · rw [if_pos hc]
      exact (dedupKeepFirst_sublist rest seen).cons h
    · rw [if_neg hc]
      exact (dedupKeepFirst_sublist rest (h :: seen)).cons₂ h

theorem mem_dedupKeepFirst : ∀ {l seen : List String} {x : String},
    x ∈ dedupKeepFirst seen l ↔ (x ∈ l ∧ x ∉ seen) := by
  intro l
  induction l with
  | nil => simp [dedupKeepFirst]
  | cons c rest ih =>
    intro seen x
    rw [dedupKeepFirst]
    by_cases hc : c ∈ seen
    · rw [if_pos (by simpa using hc)]
      rw [ih]
      constructor
      · rintro ⟨h1, h2⟩
        exact ⟨List.mem_cons_of_mem c h1, h2⟩
      · rintro ⟨h1, h2⟩
        rcases List.mem_cons.mp h1 with rfl | h1
        · exact absurd hc h2
        · exact ⟨h1, h2⟩
    · rw [if_neg (by simpa using hc)]
      constructor
      · intro hmem
        rcases List.mem_cons.mp hmem with rfl | hmem
        · exact ⟨List.mem_cons_self _ _, hc⟩
        · obtain ⟨h1, h2⟩ := ih.mp hmem
          exact ⟨List.mem_cons_of_mem c h1, fun hx => h2 (List.mem_cons_of_mem c hx)⟩
      · rintro ⟨h1, h2⟩
        by_cases hxc : x = c
        · exact hxc ▸ List.mem_cons_self _ _
        · rcases List.mem_cons.mp h1 with rfl | h1
          · exact absurd rfl hxc
          · exact List.mem_cons_of_mem c (ih.mpr ⟨h1,
              fun hx => (List.mem_cons.mp hx).elim hxc h2⟩)

theorem dedupKeepFirst_nodup : ∀ (l seen : List String), (dedupKeepFirst seen l).Nodup := by
  intro l
  induction l with
  | nil => intro seen; simp [dedupKeepFirst]
  | cons c rest ih =>
    intro seen
    rw [dedupKeepFirst]
    by_cases hc : seen.contains c = true
    · rw [if_pos hc]
      exact ih seen
    · rw [if_neg hc]
      refine List.nodup_cons.mpr ⟨?_, ih (c :: seen)⟩
      intro hmem
      exact (mem_dedupKeepFirst.mp hmem).2 (List.mem_cons_self c seen)

theorem getcolors_some {px : List Rgb} {m : Nat} {cls : List (Nat × Rgb)}
    (h : getcolors px m = some cls) :
    ∀ pr ∈ cls, pr.1 = px.count pr.2 ∧ pr.2 ∈ px := by
  unfold getcolors at h
  by_cases hc : m < px.dedup.length
  · rw [if_pos hc] at h
    exact absurd h (by simp)
  · rw [if_neg hc] at h
    injection h with h
    subst h
    intro pr hpr
    obtain ⟨c, hcmem, rfl⟩ := List.mem_map.mp hpr
    exact ⟨rfl, List.mem_dedup.mp hcmem⟩

theorem hexDigit_inj : ∀ a < 16, ∀ b < 16, hexDigit a = hexDigit b → a = b := by decide

theorem natToHexAux_small {fuel n : Nat} (h : n < 16) :
    natToHexAux fuel n = [hexDigit n] := by
  cases fuel with
  | zero => rfl
  | succ fuel => rw [natToHexAux, if_pos h]

theorem pad2Hex_eq {n : Nat} (h : n < 256) :
    pad2Hex n = [hexDigit (n / 16), hexDigit (n % 16)] := by
  by_cases h16 : n < 16
  · have hsm : natToHex n = [hexDigit n] := natToHexAux_small h16
    unfold pad2Hex
    rw [hsm]
    rw [Nat.div_eq_of_lt h16, Nat.mod_eq_of_lt h16]
    rfl
  · unfold pad2Hex natToHex
    cases n with
    | zero => omega
    | succ m =>
      rw [natToHexAux, if_neg h16, natToHexAux_small (by omega : (m + 1) / 16 < 16)]
      rfl

theorem rgb_to_hex_inj {c1 c2 : Rgb}
    (h1 : c1.1 < 256 ∧ c1.2.1 < 256 ∧ c1.2.2 < 256)
    (h2 : c2.1 < 256 ∧ c2.2.1 < 256 ∧ c2.2.2 < 256)
    (he : rgb_to_hex c1 = rgb_to_hex c2) : c1 = c2 := by
  obtain ⟨r1, g1, b1⟩ := c1
  obtain ⟨r2, g2, b2⟩ := c2
  obtain ⟨hr1, hg1, hb1⟩ := h1
  obtain ⟨hr2, hg2, hb2⟩ := h2
  simp only at hr1 hg1 hb1 hr2 hg2 hb2
  unfold rgb_to_hex at he
  simp only at he
  rw [pad2Hex_eq hr1, pad2Hex_eq hg1, pad2Hex_eq hb1,
      pad2Hex_eq hr2, pad2Hex_eq hg2, pad2Hex_eq hb2] at he
  have hd : ('#' :: hexDigit (r1 / 16) :: hexDigit (r1 % 16) :: hexDigit (g1 / 16) ::
      hexDigit (g1 % 16) :: hexDigit (b1 / 16) :: hexDigit (b1 % 16) :: []) =
      ('#' :: hexDigit (r2 / 16) :: hexDigit (r2 % 16) :: hexDigit (g2 / 16) ::
      hexDigit (g2 % 16) :: hexDigit (b2 / 16) :: hexDigit (b2 % 16) :: []) :=
    congrArg String.data he
  injection hd with h0 hd
  injection hd with e1 hd
  injection hd with e2 hd
  injection hd with e3 hd
  injection hd with e4 hd
  injection hd with e5 hd
  injection hd with e6 hd
  have hr := hexDigit_inj _ (by omega) _ (by omega) e1
  have hr' := hexDigit_inj _ (by omega) _ (by omega) e2
  have hg := hexDigit_inj _ (by omega) _ (by omega) e3
  have hg' := hexDigit_inj _ (by omega) _ (by omega) e4
  have hb := hexDigit_inj _ (by omega) _ (by omega) e5
  have hb' := hexDigit_inj _ (by omega) _ (by omega) e6
  have hre : r1 = r2 := by omega
  have hge : g1 = g2 := by omega
  have hbe : b1 = b2 := by omega
  simp [hre, hge, hbe]

theorem count_hexFreq {px : List Rgb} (hb : ∀ c ∈ px, c.1 < 256 ∧ c.2.1 < 256 ∧ c.2.2 < 256)
    {c : Rgb} (hc : c.1 < 256 ∧ c.2.1 < 256 ∧ c.2.2 < 256) :
    hexFreq px (rgb_to_hex c) = px.count c := by
  unfold hexFreq
  rw [List.count_eq_countP, List.countP_eq_length_filter]
  congr 1
  apply List.filter_congr
  intro d hd
  have hdb := hb d hd
  apply Bool.eq_iff_iff.mpr
  simp only [beq_iff_eq]
  constructor
  · intro hhex
    exact rgb_to_hex_inj hdb hc hhex
  · intro hdc
    rw [hdc]

theorem dominantFromPixels_spec (px : List Rgb) (n : Nat)
    (hb : ∀ c ∈ px, c.1 < 256 ∧ c.2.1 < 256 ∧ c.2.2 < 256) :
    (dominantFromPixels px n).length ≤ n ∧ (dominantFromPixels px n).Nodup ∧
      (dominantFromPixels px n).Pairwise (fun a b => hexFreq px b ≤ hexFreq px a) := by
  unfold dominantFromPixels
  cases hg : getcolors px (128 * 128) with
  | none => simp
  | some cls =>
    by_cases hcl : cls = []
    · simp [hcl]
    · simp only [if_neg hcl]
      set top := (List.insertionSort countGe cls).take n with htop
      set hexes := top.map (fun c => rgb_to_hex c.2) with hhexes
      have hsub : List.Sublist (dedupKeepFirst [] hexes) hexes :=
        dedupKeepFirst_sublist hexes []
      refine ⟨?_, dedupKeepFirst_nodup hexes [], ?_⟩
      · calc (dedupKeepFirst [] hexes).length ≤ hexes.length := hsub.length_le
          _ = top.length := List.length_map _ _
          _ ≤ n := List.length_take_le _ _
      · have hsorted : (List.insertionSort countGe cls).Pairwise countGe :=
          List.sorted_insertionSort countGe cls
        have htopPw : top.Pairwise countGe :=
          hsorted.sublist (List.take_sublist _ _)
        have hmemcls : ∀ pr ∈ top, pr.1 = px.count pr.2 ∧ pr.2 ∈ px := by
          intro pr hpr
          have h1 : pr ∈ List.insertionSort countGe cls :=
            (List.take_sublist _ _).subset hpr
          have h2 : pr ∈ cls := (List.perm_insertionSort countGe cls).subset h1
          exact getcolors_some hg pr h2
        have hhexPw : hexes.Pairwise (fun a b => hexFreq px b ≤ hexFreq px a) := by
          rw [hhexes, List.pairwise_map]
          refine List.Pairwise.imp_of_mem ?_ htopPw
          intro a b ha hbm hab
          obtain ⟨hca, hma⟩ := hmemcls a ha
          obtain ⟨hcb, hmb⟩ := hmemcls b hbm
          have hfa : hexFreq px (rgb_to_hex a.2) = px.count a.2 :=
            count_hexFreq hb (hb a.2 hma)
          have hfb : hexFreq px (rgb_to_hex b.2) = px.count b.2 :=
            count_hexFreq hb (hb b.2 hmb)
          rw [hfa, hfb, ← hca, ← hcb]
          exact hab
        exact hhexPw.sublist hsub

/-! ## Claim C4 -/

/-- Claim C4 fails on the "exists but unreadable" clause: the source
checks only `os.path.exists`, so a decode failure on an existing path
propagates as an exception instead of yielding the empty sequence. -/
theorem C4_counterexample :
    envImgBad.pathExists "logo.png" = true ∧
    image_dominant_colors envImgBad "logo.png" 5 = Except.error () ∧
    image_dominant_colors envImgBad "logo.png" 5 ≠ Except.ok [] := by
  decide

/-- Claim C4, amended: a nonexistent path yields the empty sequence
without raising; an existing path whose decode raises propagates that
failure; and on success the result has at most `N` entries, no
duplicates, and is ranked by pixel frequency descending (stated for
byte-valued pixels, which is what the raster library supplies). -/
theorem C4_dominant_colors (env : Env) (p : String) (n : Nat) :
    (env.pathExists p = false → image_dominant_colors env p n = .ok []) ∧
    (∀ e : Unit, env.pathExists p = true → env.imagePixels p = .error e →
      image_dominant_colors env p n = .error e) ∧
    (∀ px : List Rgb, env.pathExists p = true → env.imagePixels p = .ok px →
      (∀ c ∈ px, c.1 < 256 ∧ c.2.1 < 256 ∧ c.2.2 < 256) →
      image_dominant_colors env p n = .ok (dominantFromPixels px n) ∧
      (dominantFromPixels px n).length ≤ n ∧
      (dominantFromPixels px n).Nodup ∧
      (dominantFromPixels px n).Pairwise (fun a b => hexFreq px b ≤ hexFreq px a)) := by
  refine ⟨?_, ?_, ?_⟩
  · intro h
    simp [image_dominant_colors, h]
  · intro e h1 h2
    simp [image_dominant_colors, h1, h2]
  · intro px h1 h2 h3
    obtain ⟨hl, hn, hp⟩ := dominantFromPixels_spec px n h3
    exact ⟨by simp [image_dominant_colors, h1, h2], hl, hn, hp⟩

/-! ## Claim C2 -/

/-- Claim C2 fails on the palette clause: the profile it asserts (all
signals empty and `chart_palette` exactly the 6-entry fallback) is not
what the zero-file run produces — `ensure_palette` prepends the default
neutral color, giving 7 entries. -/
theorem C2_counterexample :
    extract_brand_from_files envEmpty [] ≠
      Except.ok { logo_path := none,
                  primary_color := none, secondary_color := none, accent_color := none,
                  detected_colors := [], hex_colors_in_text := [],
                  chart_palette := fallbackPalette } := by
  decide

/-- Claim C2, amended: with zero input files, `logo_path` is unset,
`detected_colors`, `hex_colors_in_text` are empty, no role colors are
assigned, and `chart_palette` is the default neutral color `"#111827"`
followed by the fixed 6-entry fallback sequence (7 entries). -/
theorem C2_empty_input (env : Env) :
    extract_brand_from_files env [] =
      Except.ok { logo_path := none,
                  primary_color := none, secondary_color := none, accent_color := none,
                  detected_colors := [], hex_colors_in_text := [],
                  chart_palette := "#111827" :: fallbackPalette } := rfl

/-! ## Claim C5 -/

/-- Claim C5: one DOCX whose text is
`"Our brand color is #2563EB and accent #0EA5E9."` and no other input:
`hex_colors_in_text` is the lexicographically ascending pair, and with
`detected_colors` empty the role assignment consumes the sorted list —
index 0 to `primary_color`, index 1 to `secondary_color`, and
`accent_color` (index 2, absent) stays unset. -/
theorem C5_docx_scenario :
    extract_brand_from_files envDocx ["brand.docx"] =
      .ok { logo_path := none,
            primary_color := some "#0EA5E9",
            secondary_color := some "#2563EB",
            accent_color := none,
            detected_colors := [],
            hex_colors_in_text := ["#0EA5E9", "#2563EB"],
            chart_palette := ["#0EA5E9", "#2563EB", "#111827", "#22C55E", "#F97316",
                              "#E11D48", "#A855F7"] } := by
  decide

/-! ## Helper lemmas: set accumulation and the PDF pass -/

theorem mem_setInsert {s : List String} {y x : String} :
    x ∈ setInsert s y ↔ (x ∈ s ∨ x = y) := by
  unfold setInsert
  by_cases hc : y ∈ s
  · rw [if_pos (by simpa using hc)]
    constructor
    · exact Or.inl
    · rintro (h | rfl)
      · exact h
      · exact hc
  · rw [if_neg (by simpa using hc)]
    simp

theorem mem_setUpdateList : ∀ {xs s : List String} {x : String},
    x ∈ setUpdateList s xs ↔ (x ∈ s ∨ x ∈ xs) := by
  intro xs
  induction xs with
  | nil => simp [setUpdateList]
  | cons y ys ih =>
    intro s x
    show x ∈ setUpdateList (setInsert s y) ys ↔ _
    rw [ih, mem_setInsert]
    simp only [List.mem_cons]
    tauto

theorem pdfTextFontsPass_hex_mono :
    ∀ (pages : List PdfPage) (hexs : List String) (fonts : Counter) {x : String},
      x ∈ hexs → x ∈ (pdfTextFontsPass pages hexs fonts).1 := by
  intro pages
  induction pages with
  | nil => intro hexs fonts x hx; exact hx
  | cons pg rest ih =>
    intro hexs fonts x hx
    rw [pdfTextFontsPass]
    cases pg.text with
    | error e => exact hx
    | ok t => exact ih _ _ (mem_setUpdateList.mpr (Or.inl hx))

theorem pdfTextFontsPass_text_contrib :
    ∀ (pre : List PdfPage) (pg : PdfPage) (suf : List PdfPage) (hexs : List String)
      (fonts : Counter) (t : Option String),
      (∀ q ∈ pre, ∃ tq, q.text = .ok tq) →
      pg.text = .ok t →
      ∀ c ∈ extract_hex_colors_from_text (some (t.getD "")),
        c ∈ (pdfTextFontsPass (pre ++ pg :: suf) hexs fonts).1 := by
  intro pre
  induction pre with
  | nil =>
    intro pg suf hexs fonts t _ htext c hc
    rw [List.nil_append, pdfTextFontsPass, htext]
    exact pdfTextFontsPass_hex_mono _ _ _ (mem_setUpdateList.mpr (Or.inr hc))
  | cons q pre' ih =>
    intro pg suf hexs fonts t hpre htext c hc
    obtain ⟨tq, htq⟩ := hpre q (List.mem_cons_self q pre')
    rw [List.cons_append, pdfTextFontsPass, htq]
    exact ih pg suf _ _ t (fun r hr => hpre r (List.mem_cons_of_mem q hr)) htext c hc

/-! ## Claim C3 -/

/-- Claim C3 fails on the per-signal scoping it asserts: text and font
extraction run inside one `try`, so a PDF whose text extraction raises
(on its only page) loses its font tally even though the page's
character/font data was readable — while the embedded-image pass, in its
own `try`, still contributes. -/
theorem C3_counterexample :
    envC3.pdfPages "a.pdf" = .ok [pageTextFails] ∧
    pageTextFails.chars = .ok [some "Helvetica"] ∧
    fontTally [] [some "Helvetica"] = [("Helvetica", 1)] ∧
    (_extract_from_pdf envC3 "a.pdf").2.1 = [] ∧
    (_extract_from_pdf envC3 "a.pdf").2.2 ≠ [] := by
  decide

/-- Claim C3, amended: failures are caught per `try` block, not per
signal.  The embedded-image pass is isolated from the text+font pass
(each depends only on its own library call), and a per-page font
(`chars`) failure is caught by the inner `try`, so a page whose text was
read still contributes its text-scan hex colors no matter what the font
extraction of any page does; but text and fonts share the outer `try`,
so a text-extraction failure aborts both for the rest of that file
(earlier pages' accumulation is kept). -/
theorem C3_pdf_error_scoping (env1 env2 : Env) (path : String) :
    ((_extract_from_pdf env1 path).2.2 = pdfImagesPass path (env1.fitzImages path)) ∧
    (env1.fitzImages path = env2.fitzImages path →
      (_extract_from_pdf env1 path).2.2 = (_extract_from_pdf env2 path).2.2) ∧
    (env1.pdfPages path = env2.pdfPages path →
      (_extract_from_pdf env1 path).1 = (_extract_from_pdf env2 path).1 ∧
      (_extract_from_pdf env1 path).2.1 = (_extract_from_pdf env2 path).2.1) ∧
    (∀ (pages pre suf : List PdfPage) (pg : PdfPage) (t : Option String),
      env1.pdfPages path = .ok pages →
      pages = pre ++ pg :: suf →
      (∀ q ∈ pre, ∃ tq, q.text = .ok tq) →
      pg.text = .ok t →
      ∀ c ∈ extract_hex_colors_from_text (some (t.getD "")),
        c ∈ (_extract_from_pdf env1 path).1) := by
  have hcongr : env1.pdfPages path = env2.pdfPages path →
      pdfTextFonts env1 path = pdfTextFonts env2 path := by
    intro h
    unfold pdfTextFonts
    rw [h]
  refine ⟨rfl, ?_, ?_, ?_⟩
  · intro h
    show pdfImagesPass path (env1.fitzImages path) =
      pdfImagesPass path (env2.fitzImages path)
    rw [h]
  · intro h
    constructor
    · show pySortStrings (pdfTextFonts env1 path).1 =
        pySortStrings (pdfTextFonts env2 path).1
      rw [hcongr h]
    · show (pdfTextFonts env1 path).2 = (pdfTextFonts env2 path).2
      rw [hcongr h]
  · intro pages pre suf pg t hok hsplit hpre htext c hc
    show c ∈ pySortStrings (pdfTextFonts env1 path).1
    rw [mem_pySortStrings]
    have hpt : pdfTextFonts env1 path = pdfTextFontsPass pages [] [] := by
      unfold pdfTextFonts
      rw [hok]
    rw [hpt, hsplit]
    exact pdfTextFontsPass_text_contrib pre pg suf [] [] t hpre htext c hc

/-! ## Helper lemmas: the assembler's accumulation loop -/

theorem pyJoin_ne_empty {a : String} (b : String) (ha : a ≠ "") : pyJoin a b ≠ "" := by
  unfold pyJoin
  rw [if_neg ha]
  by_cases hs : pyEndsWith a "/" = true
  · rw [if_pos hs]
    intro h
    have := congrArg String.data h
    simp only [String.data_append] at this
    rcases List.append_eq_nil.mp this with ⟨h1, _⟩
    exact ha (by cases a; simp_all)
  · rw [if_neg hs]
    intro h
    have := congrArg String.data h
    simp only [String.data_append] at this
    rcases List.append_eq_nil.mp this with ⟨h1, _⟩
    rcases List.append_eq_nil.mp h1 with ⟨h2, _⟩
    exact ha (by cases a; simp_all)

theorem pdfImagesPass_ne_empty {path : String} {fitz : Except Unit (List Nat)}
    {x : String} (hx : x ∈ pdfImagesPass path fitz) : x ≠ "" := by
  unfold pdfImagesPass at hx
  cases fitz with
  | error e => simp at hx
  | ok pageCounts =>
    simp only [List.mem_flatten, List.mem_map] at hx
    obtain ⟨l, ⟨pc, _, rfl⟩, hxl⟩ := hx
    obtain ⟨i, _, rfl⟩ := List.mem_map.mp hxl
    apply pyJoin_ne_empty
    by_cases hd : pyDirname path = ""
    · simp [hd]
      exact pyJoin_ne_empty _ (by decide)
    · simp [hd]
      exact pyJoin_ne_empty _ hd

theorem stepFile_logoC (env : Env) (acc : SigAcc) (p : String) :
    (stepFile env acc p).logoC = acc.logoC ++
      (if isPdfPath env p = true then (_extract_from_pdf env p).2.2 else []) := by
  by_cases hp1 : p = ""
  · simp [stepFile, isPdfPath, hp1]
  by_cases hp2 : env.pathExists p = true
  · by_cases hp3 : pyEndsWith (pyLowerString p) ".pdf" = true
    · simp [stepFile, isPdfPath, hp1, hp2, hp3]
    · by_cases hp4 : pyEndsWith (pyLowerString p) ".docx" = true
      · simp [stepFile, isPdfPath, hp1, hp2, hp3, hp4]
      · by_cases hp5 : (imageExts.any fun e => pyEndsWith (pyLowerString p) e) = true
        · simp [stepFile, isPdfPath, hp1, hp2, hp3, hp4, hp5]
        · simp [stepFile, isPdfPath, hp1, hp2, hp3, hp4, hp5]
  · have hp2' : env.pathExists p = false := by simpa using hp2
    simp [stepFile, isPdfPath, hp1, hp2']

theorem stepFile_imgC (env : Env) (acc : SigAcc) (p : String) :
    (stepFile env acc p).imgC = acc.imgC ++
      (if isPdfPath env p = true then (_extract_from_pdf env p).2.2
       else if isImagePath env p = true then [p] else []) := by
  by_cases hp1 : p = ""
  · simp [stepFile, isPdfPath, isImagePath, hp1]
  by_cases hp2 : env.pathExists p = true
  · by_cases hp3 : pyEndsWith (pyLowerString p) ".pdf" = true
    · simp [stepFile, isPdfPath, isImagePath, hp1, hp2, hp3]
    · by_cases hp4 : pyEndsWith (pyLowerString p) ".docx" = true
      · simp [stepFile, isPdfPath, isImagePath, hp1, hp2, hp3, hp4]
      · by_cases hp5 : (imageExts.any fun e => pyEndsWith (pyLowerString p) e) = true
        · simp [stepFile, isPdfPath, isImagePath, hp1, hp2, hp3, hp4, hp5]
        · simp [stepFile, isPdfPath, isImagePath, hp1, hp2, hp3, hp4, hp5]
  · have hp2' : env.pathExists p = false := by simpa using hp2
    simp [stepFile, isPdfPath, isImagePath, hp1, hp2']

theorem collectSignals_logoC : ∀ (paths : List String) (env : Env) (acc : SigAcc),
    (collectSignals env paths acc).logoC = acc.logoC ++ pdfSurfacedImages env paths := by
  intro paths
  induction paths with
  | nil =>
    intro env acc
    simp [collectSignals, pdfSurfacedImages]
  | cons p rest ih =>
    intro env acc
    show (collectSignals env rest (stepFile env acc p)).logoC = _
    rw [ih, stepFile_logoC]
    unfold pdfSurfacedImages
    by_cases hpdf : isPdfPath env p = true
    · simp [hpdf, List.filter_cons, pdfSurfacedImages]
    · simp [hpdf, List.filter_cons, pdfSurfacedImages]

theorem collectSignals_imgC : ∀ (paths : List String) (env : Env) (acc : SigAcc),
    (collectSignals env paths acc).imgC = acc.imgC ++
      (paths.map (fun p =>
        if isPdfPath env p = true then (_extract_from_pdf env p).2.2
        else if isImagePath env p = true then [p] else [])).flatten := by
  intro paths
  induction paths with
  | nil =>
    intro env acc
    simp [collectSignals]
  | cons p rest ih =>
    intro env acc
    show (collectSignals env rest (stepFile env acc p)).imgC = _
    rw [ih, stepFile_imgC]
    simp [List.append_assoc]

theorem imgC_of_no_pdf_images : ∀ {paths : List String} {env : Env},
    pdfSurfacedImages env paths = [] →
    (paths.map (fun p =>
      if isPdfPath env p = true then (_extract_from_pdf env p).2.2
      else if isImagePath env p = true then [p] else [])).flatten =
      standaloneImages env paths := by
  intro paths
  induction paths with
  | nil => intro env _; simp [standaloneImages]
  | cons p rest ih =>
    intro env h
    unfold pdfSurfacedImages at h
    by_cases hpdf : isPdfPath env p = true
    · rw [List.filter_cons_of_pos (by simpa using hpdf)] at h
      simp only [List.map_cons, List.flatten_cons] at h
      rcases List.append_eq_nil.mp h with ⟨h1, h2⟩
      have himg : isImagePath env p = false := by
        unfold isImagePath
        unfold isPdfPath at hpdf
        simp only [Bool.and_eq_true] at hpdf
        simp [hpdf.1.1, hpdf.1.2, hpdf.2]
      simp only [List.map_cons, List.flatten_cons, hpdf, if_pos, h1]
      rw [ih (by unfold pdfSurfacedImages; exact h2)]
      unfold standaloneImages
      rw [List.filter_cons_of_neg (by simp [himg])]
      simp
    · rw [List.filter_cons_of_neg (by simpa using hpdf)] at h
      simp only [List.map_cons, List.flatten_cons, hpdf]
      rw [if_neg (by simp [hpdf])]
      unfold standaloneImages
      by_cases himg : isImagePath env p = true
      · rw [if_pos himg, List.filter_cons_of_pos (by simpa using himg)]
        rw [ih (by unfold pdfSurfacedImages; exact h)]
        rfl
      · rw [if_neg himg, List.filter_cons_of_neg (by simpa using himg)]
        rw [ih (by unfold pdfSurfacedImages; exact h)]
        rfl

theorem ensure_palette_logo_path (p : BrandProfile) :
    (BrandProfile.ensure_palette p).logo_path = p.logo_path := by
  unfold BrandProfile.ensure_palette
  split <;> rfl

theorem ensure_palette_detected (p : BrandProfile) :
    (BrandProfile.ensure_palette p).detected_colors = p.detected_colors := by
  unfold BrandProfile.ensure_palette
  split <;> rfl

theorem assembleProfile_logo (acc : SigAcc) (logo : Option String) (d : List String) :
    (assembleProfile acc logo d).logo_path = logo := by
  unfold assembleProfile
  split <;> split <;> simp [ensure_palette_logo_path]

theorem assembleProfile_detected (acc : SigAcc) (logo : Option String) (d : List String) :
    (assembleProfile acc logo d).detected_colors = d := by
  unfold assembleProfile
  split <;> split <;> simp [ensure_palette_detected]

theorem extract_ok_inv {env : Env} {paths : List String} {pr : BrandProfile}
    (h : extract_brand_from_files env paths = .ok pr) :
    ∃ d, dominantStep env (collectSignals env paths initAcc)
        (chooseLogo (collectSignals env paths initAcc).logoC
          (collectSignals env paths initAcc).imgC) = .ok d ∧
      pr = assembleProfile (collectSignals env paths initAcc)
        (chooseLogo (collectSignals env paths initAcc).logoC
          (collectSignals env paths initAcc).imgC) d := by
  have h2 : (match dominantStep env (collectSignals env paths initAcc)
      (chooseLogo (collectSignals env paths initAcc).logoC
        (collectSignals env paths initAcc).imgC) with
    | Except.error e => Except.error e
    | Except.ok dominant_colors =>
      Except.ok (assembleProfile (collectSignals env paths initAcc)
        (chooseLogo (collectSignals env paths initAcc).logoC
          (collectSignals env paths initAcc).imgC) dominant_colors)) = .ok pr := h
  cases hd : dominantStep env (collectSignals env paths initAcc)
      (chooseLogo (collectSignals env paths initAcc).logoC
        (collectSignals env paths initAcc).imgC) with
  | error e =>
    rw [hd] at h2
    have h' : (Except.error e : Except Unit BrandProfile) = .ok pr := h2
    exact absurd h' (by simp)
  | ok d =>
    rw [hd] at h2
    have h' : (Except.ok (assembleProfile (collectSignals env paths initAcc)
      (chooseLogo (collectSignals env paths initAcc).logoC
        (collectSignals env paths initAcc).imgC) d) :
      Except Unit BrandProfile) = .ok pr := h2
    injection h' with h'
    exact ⟨d, rfl, h'.symm⟩

/-! ## Claim C6 -/

/-- Claim C6: the chosen logo obeys the fixed precedence for every input
list — the first candidate surfaced by any PDF's embedded-image
extraction if one exists, else the first standalone image file of the
input, else unset; the returned profile's `logo_path` is that choice;
and on the concrete one-PDF-plus-one-JPEG input the PDF-embedded image
wins over the JPEG. -/
theorem C6_logo_precedence (env : Env) (paths : List String) :
    (chooseLogo (collectSignals env paths initAcc).logoC
        (collectSignals env paths initAcc).imgC =
      match (pdfSurfacedImages env paths).head? with
      | some l => some l
      | none => (standaloneImages env paths).head?) ∧
    (∀ pr, extract_brand_from_files env paths = .ok pr →
      pr.logo_path = chooseLogo (collectSignals env paths initAcc).logoC
        (collectSignals env paths initAcc).imgC) ∧
    ((extract_brand_from_files envPdfJpeg ["deck.pdf", "photo.jpg"]).map
        BrandProfile.logo_path =
      .ok (some "./_extracted_logos/pdf_p0_img0.png")) := by
  refine ⟨?_, ?_, by decide⟩
  · rw [show (collectSignals env paths initAcc).logoC = pdfSurfacedImages env paths from
      collectSignals_logoC paths env initAcc]
    cases hps : pdfSurfacedImages env paths with
    | cons l ls => rfl
    | nil =>
      show chooseLogo [] (collectSignals env paths initAcc).imgC =
        (standaloneImages env paths).head?
      rw [show (collectSignals env paths initAcc).imgC = standaloneImages env paths by
        rw [collectSignals_imgC paths env initAcc, imgC_of_no_pdf_images hps]; rfl]
      cases standaloneImages env paths <;> rfl
  · intro pr h
    obtain ⟨d, _, rfl⟩ := extract_ok_inv h
    exact assembleProfile_logo _ _ _

theorem collectSignals_ne_empty : ∀ (paths : List String) (env : Env) (acc : SigAcc),
    (∀ x ∈ acc.logoC, x ≠ "") → (∀ x ∈ acc.imgC, x ≠ "") →
    (∀ x ∈ (collectSignals env paths acc).logoC, x ≠ "") ∧
    (∀ x ∈ (collectSignals env paths acc).imgC, x ≠ "") := by
  intro paths
  induction paths with
  | nil => intro env acc h1 h2; exact ⟨h1, h2⟩
  | cons p rest ih =>
    intro env acc h1 h2
    show (∀ x ∈ (collectSignals env rest (stepFile env acc p)).logoC, x ≠ "") ∧
      (∀ x ∈ (collectSignals env rest (stepFile env acc p)).imgC, x ≠ "")
    apply ih
    · intro x hx
      rw [stepFile_logoC] at hx
      rcases List.mem_append.mp hx with hx | hx
      · exact h1 x hx
      · by_cases hpdf : isPdfPath env p = true
        · rw [if_pos hpdf] at hx
          exact pdfImagesPass_ne_empty hx
        · rw [if_neg hpdf] at hx
          simp at hx
    · intro x hx
      rw [stepFile_imgC] at hx
      rcases List.mem_append.mp hx with hx | hx
      · exact h2 x hx
      · by_cases hpdf : isPdfPath env p = true
        · rw [if_pos hpdf] at hx
          exact pdfImagesPass_ne_empty hx
        · rw [if_neg hpdf] at hx
          by_cases himg : isImagePath env p = true
          · rw [if_pos himg] at hx
            simp only [List.mem_singleton] at hx
            subst hx
            unfold isImagePath at himg
            simp only [Bool.and_eq_true, Bool.not_eq_true', beq_eq_false_iff_ne,
              ne_eq] at himg
            exact himg.1.1.1.1
          · rw [if_neg himg] at hx
            simp at hx

/-! ## Claim C10 -/

/-- Claim C10 (implicit invariant): whenever the chosen logo fails the
truthiness test, the image-candidate list is empty — so the `elif`
branch running dominant-color extraction on the first image candidate is
unreachable — and consequently a returned profile with non-empty
`detected_colors` always has `logo_path` set. -/
theorem C10_detected_implies_logo (env : Env) (paths : List String) :
    (pyTruthyOpt (chooseLogo (collectSignals env paths initAcc).logoC
        (collectSignals env paths initAcc).imgC) = false →
      (collectSignals env paths initAcc).imgC = []) ∧
    (∀ pr, extract_brand_from_files env paths = .ok pr →
      pr.detected_colors ≠ [] → pr.logo_path ≠ none) := by
  have hinv := collectSignals_ne_empty paths env initAcc
    (by intro x hx; simp [initAcc] at hx) (by intro x hx; simp [initAcc] at hx)
  have hbranch : pyTruthyOpt (chooseLogo (collectSignals env paths initAcc).logoC
      (collectSignals env paths initAcc).imgC) = false →
      (collectSignals env paths initAcc).imgC = [] := by
    intro hfalse
    cases hl : (collectSignals env paths initAcc).logoC with
    | cons l ls =>
      exfalso
      have hf2 : pyTruthyOpt (chooseLogo (l :: ls)
          (collectSignals env paths initAcc).imgC) = false := by
        rw [← hl]; exact hfalse
      have hlne : l ≠ "" := hinv.1 l (by rw [hl]; exact List.mem_cons_self _ _)
      simp [chooseLogo, pyTruthyOpt, hlne] at hf2
    | nil =>
      cases hi : (collectSignals env paths initAcc).imgC with
      | nil => rfl
      | cons i is =>
        exfalso
        have hf2 : pyTruthyOpt (chooseLogo [] (i :: is)) = false := by
          rw [← hl, ← hi]; exact hfalse
        have hine : i ≠ "" := hinv.2 i (by rw [hi]; exact List.mem_cons_self _ _)
        simp [chooseLogo, pyTruthyOpt, hine] at hf2
  refine ⟨hbranch, ?_⟩
  intro pr h hdet
  obtain ⟨d, hds, rfl⟩ := extract_ok_inv h
  rw [assembleProfile_detected] at hdet
  rw [assembleProfile_logo]
  by_cases htr : pyTruthyOpt (chooseLogo (collectSignals env paths initAcc).logoC
      (collectSignals env paths initAcc).imgC) = true
  · cases hcl : chooseLogo (collectSignals env paths initAcc).logoC
        (collectSignals env paths initAcc).imgC with
    | none => rw [hcl] at htr; simp [pyTruthyOpt] at htr
    | some s => simp
  · exfalso
    have hfalse : pyTruthyOpt (chooseLogo (collectSignals env paths initAcc).logoC
        (collectSignals env paths initAcc).imgC) = false := by
      simpa using htr
    have himgc := hbranch hfalse
    unfold dominantStep at hds
    rw [if_neg (by simp [hfalse]), himgc, if_neg (by simp)] at hds
    have hd0 : (Except.ok ([] : List String) : Except Unit (List String)) = .ok d := hds
    injection hd0 with hd0
    exact hdet hd0.symm
